import Mathlib

/- Verification of the vecfs sparse-vector store (py-src).

   Modelling conventions:
   - Python floats are modelled as exact real numbers; `x ** 0.5` and
     `math.sqrt` become `Real.sqrt`.
   - A Python `dict[int, float]` sparse vector is modelled as an association
     list `List (Nat x Real)`; Python dictionaries cannot hold duplicate keys,
     so theorems about arbitrary dictionaries carry a `Nodup` hypothesis on
     the key list.  `_normalize_keys` is the identity on such a model (keys
     are already integers, values already floats) and is therefore elided
     where the source applies it to int-keyed dictionaries.
   - Timestamps are integers (milliseconds since epoch), passed as an
     explicit `now` argument in place of `time.time() * 1000`.
-/

namespace VecFS

/-- A sparse vector, Python dict mapping dimension index to weight
    (vecfs_py/sparse.py). -/
abbrev SparseVec := List (ℕ × ℝ)

/-- Inner loop of dot_product (sparse.py): iterate the pairs of `a`, probe `b`
    by key; Python skips keys absent from `b`, contributing nothing. -/
noncomputable def probe_sum (a b : SparseVec) : ℝ :=
  (a.map (fun p => match b.lookup p.1 with
    | some y => p.2 * y
    | none => 0)).sum

/-- dot_product (sparse.py): swap so the smaller map is iterated, then
    sum a[i] * b[i] over keys i of the smaller present in the larger. -/
noncomputable def dot_product (v1 v2 : SparseVec) : ℝ :=
  if v1.length > v2.length then probe_sum v2 v1 else probe_sum v1 v2

/-- Sum of squared values, the argument of the square root in norm
    (sparse.py line 28). -/
noncomputable def norm_sq (v : SparseVec) : ℝ :=
  (v.map (fun p => p.2 * p.2)).sum

/-- norm (sparse.py): Euclidean norm, total ** 0.5. -/
noncomputable def norm (v : SparseVec) : ℝ :=
  Real.sqrt (norm_sq v)

/-- The local n1 of cosine_similarity (sparse.py line 38): the precomputed
    norm when supplied, else the norm of v1. -/
noncomputable def cos_n1 (v1 : SparseVec) (v1_norm : Option ℝ) : ℝ :=
  match v1_norm with
  | some n => n
  | none => norm v1

open scoped Classical in
/-- cosine_similarity (sparse.py): dot over product of norms, 0 when either
    norm is 0.  The optional argument models the v1_norm keyword. -/
noncomputable def cosine_similarity (v1 v2 : SparseVec)
    (v1_norm : Option ℝ) : ℝ :=
  if cos_n1 v1 v1_norm = 0 ∨ norm v2 = 0 then 0
  else dot_product v1 v2 / (cos_n1 v1 v1_norm * norm v2)

/-- FEEDBACK_RANK_WEIGHT (storage.py line 16). -/
noncomputable def FEEDBACK_RANK_WEIGHT : ℝ := 0.1

/-- feedback_boost (storage.py): bounded contribution of the reinforcement
    score to ranking. -/
noncomputable def feedback_boost (score : ℝ) : ℝ :=
  FEEDBACK_RANK_WEIGHT * (score / (1 + |score|))

/-- combined_rank (storage.py): similarity plus feedback boost, higher is
    better. -/
noncomputable def combined_rank (similarity score : ℝ) : ℝ :=
  similarity + feedback_boost score

/-- Keys of an in-memory Python dictionary: JSON object keys are strings,
    and storage converts vector keys to integers. -/
inductive PyKey where
  | s (v : String)
  | i (v : ℤ)
deriving DecidableEq

/-- A JSON-compatible Python value, as returned by json.loads (numbers as
    exact rationals). -/
inductive PyVal where
  | null
  | bool (b : Bool)
  | num (q : ℚ)
  | str (s : String)
  | list (xs : List PyVal)
  | dict (kvs : List (PyKey × PyVal))

/-- Lookup of a key in a Python dictionary modelled as an association list. -/
def lookup_dict : List (PyKey × PyVal) → PyKey → Option PyVal
  | [], _ => none
  | kv :: rest, k => if kv.1 = k then some kv.2 else lookup_dict rest k

/-- Assignment d[k] = v on a Python dictionary: an existing key keeps its
    position and gets the new value, a new key is appended. -/
def dict_set_pv : List (PyKey × PyVal) → PyKey → PyVal → List (PyKey × PyVal)
  | [], k, v => [(k, v)]
  | kv :: rest, k, v =>
    if kv.1 = k then (kv.1, v) :: rest else kv :: dict_set_pv rest k v

/-- Digit characters to a natural number, most significant first. -/
def char_digits_to_nat (cs : List Char) : ℕ :=
  cs.foldl (fun a c => a * 10 + (c.toNat - 48)) 0

/-- Strip leading and trailing whitespace from a character list. -/
def trim_chars (cs : List Char) : List Char :=
  ((cs.dropWhile Char.isWhitespace).reverse.dropWhile Char.isWhitespace).reverse

/-- The Python builtin int applied to a string: optional surrounding
    whitespace, an optional sign, then decimal digits; anything else raises
    ValueError (modelled as none).  Digit-group underscores are not
    modelled. -/
def py_int_of_string (s : String) : Option ℤ :=
  match trim_chars s.toList with
  | '+' :: rest =>
    if rest ≠ [] ∧ rest.all Char.isDigit then some (char_digits_to_nat rest) else none
  | '-' :: rest =>
    if rest ≠ [] ∧ rest.all Char.isDigit then some (-(char_digits_to_nat rest : ℤ)) else none
  | rest =>
    if rest ≠ [] ∧ rest.all Char.isDigit then some (char_digits_to_nat rest) else none

/-- Python exception classes relevant to this code. -/
inductive PyErr where
  | valueError
  | typeError
deriving DecidableEq

/-- Key conversion of the vector dictionary in parse_line (storage.py
    line 47): int(k) for every key; a non-numeric string key raises
    ValueError. -/
def convert_vec_keys : List (PyKey × PyVal) → Except PyErr (List (PyKey × PyVal))
  | [] => .ok []
  | kv :: rest =>
    match kv.1 with
    | .i n =>
      match convert_vec_keys rest with
      | .error e => .error e
      | .ok l => .ok ((PyKey.i n, kv.2) :: l)
    | .s v =>
      match py_int_of_string v with
      | none => .error .valueError
      | some n =>
        match convert_vec_keys rest with
        | .error e => .error e
        | .ok l => .ok ((PyKey.i n, kv.2) :: l)

/-- Building a Python dictionary from a list of pairs: sequential insertion,
    later duplicates overwrite in place. -/
def dict_of_pairs_pv (l : List (PyKey × PyVal)) : List (PyKey × PyVal) :=
  l.foldl (fun d kv => dict_set_pv d kv.1 kv.2) []

/-- Python substring containment, needle in haystack. -/
def py_contains_str (needle hay : String) : Bool :=
  decide (needle.toList <:+: hay.toList)

/-- One line of the backing file, described by the outcome of json.loads on
    the stripped line: blank if it strips to empty, malformed if json.loads
    raises JSONDecodeError, parsed j if json.loads returns j. -/
inductive RawLine where
  | blank
  | malformed
  | parsed (j : PyVal)

/-- The body of parse_line (storage.py lines 46 to 48) after json.loads
    succeeded, modelling Python evaluation of
    if vector in entry and isinstance of dict: convert keys.
    The membership test raises TypeError on non-iterable values (numbers,
    booleans, null); subscripting a string or a list with the string key
    raises TypeError; a string or list that does not contain vector is
    returned unchanged. -/
def parse_entry_value : PyVal → Except PyErr PyVal
  | .null => .error .typeError
  | .bool _ => .error .typeError
  | .num _ => .error .typeError
  | .str s =>
    if py_contains_str "vector" s then .error .typeError else .ok (.str s)
  | .list xs =>
    if xs.any (fun e => match e with | .str t => t == "vector" | _ => false) then
      .error .typeError
    else .ok (.list xs)
  | .dict kvs =>
    match lookup_dict kvs (.s "vector") with
    | none => .ok (.dict kvs)
    | some (.dict vkvs) =>
      match convert_vec_keys vkvs with
      | .error e => .error e
      | .ok l => .ok (.dict (dict_set_pv kvs (.s "vector") (.dict (dict_of_pairs_pv l))))
    | some _ => .ok (.dict kvs)

/-- parse_line (storage.py lines 37 to 48): blank lines and lines that fail
    JSON parsing give none; otherwise the parsed value is processed. -/
def parse_line : RawLine → Except PyErr (Option PyVal)
  | .blank => .ok none
  | .malformed => .ok none
  | .parsed j =>
    match parse_entry_value j with
    | .error e => .error e
    | .ok v => .ok (some v)

/-- The loop of VecFSStorage load_entries (storage.py lines 79 to 84):
    lines yielding none are skipped, parsed values are appended in order,
    an uncaught exception aborts the load. -/
def load_entries : List RawLine → Except PyErr (List PyVal)
  | [] => .ok []
  | line :: rest =>
    match parse_line line with
    | .error e => .error e
    | .ok none => load_entries rest
    | .ok (some v) =>
      match load_entries rest with
      | .error e => .error e
      | .ok vs => .ok (v :: vs)

/-- A stored entry as built by VecFSStorage.store.  Loaded entries may lack
    a vector or a score, hence the optional fields; metadata is an opaque
    JSON object. -/
structure Entry where
  id : String
  metadata : List (String × PyVal)
  vector : Option SparseVec
  score : Option ℝ
  timestamp : ℤ

/-- The store: the in-memory cache and the backing file, the latter
    modelled by the sequence of entries its lines serialize. -/
structure StoreState where
  entries : List Entry
  file : List Entry

/-- The loop of VecFSStorage.store (storage.py lines 118 to 122): replace
    the first entry with the given id in place, or report none if absent. -/
def upsert_first (full : Entry) : List Entry → Option (List Entry)
  | [] => none
  | e :: rest =>
    if e.id = full.id then some (full :: rest)
    else (upsert_first full rest).map (e :: ·)

/-- The full record built by VecFSStorage.store (storage.py lines 111 to
    117): metadata or the empty dictionary, the given vector and score, and
    a fresh timestamp.  now stands for int(time.time() * 1000). -/
def full_entry (id_ : String) (vector : SparseVec)
    (metadata : Option (List (String × PyVal))) (score : ℝ) (now : ℤ) : Entry :=
  ⟨id_, metadata.getD [], some vector, some score, now⟩

/-- VecFSStorage.store (storage.py lines 99 to 125): build the full record,
    replace in place and rewrite the whole file when the id exists (result
    false), otherwise append to cache and append one line to the file
    (result true). -/
def store (st : StoreState) (id_ : String) (vector : SparseVec)
    (metadata : Option (List (String × PyVal))) (score : ℝ) (now : ℤ) :
    StoreState × Bool :=
  match upsert_first (full_entry id_ vector metadata score now) st.entries with
  | some l => (⟨l, l⟩, false)
  | none => (⟨st.entries ++ [full_entry id_ vector metadata score now],
      st.file ++ [full_entry id_ vector metadata score now]⟩, true)

/-- The loop of VecFSStorage.update_score (storage.py lines 162 to 166):
    add the adjustment to the score of the first entry with the id, the
    missing score defaulting to 0. -/
def adjust_first (id_ : String) (adj : ℝ) : List Entry → Option (List Entry)
  | [] => none
  | e :: rest =>
    if e.id = id_ then
      some (⟨e.id, e.metadata, e.vector, some (e.score.getD 0 + adj), e.timestamp⟩ :: rest)
    else (adjust_first id_ adj rest).map (e :: ·)

/-- VecFSStorage.update_score (storage.py lines 158 to 167). -/
def update_score (st : StoreState) (id_ : String) (adj : ℝ) : StoreState × Bool :=
  match adjust_first id_ adj st.entries with
  | some l => (⟨l, l⟩, true)
  | none => (st, false)

/-- The loop of VecFSStorage.delete (storage.py lines 173 to 177): pop the
    first entry with the id. -/
def remove_first (id_ : String) : List Entry → Option (List Entry)
  | [] => none
  | e :: rest =>
    if e.id = id_ then some rest
    else (remove_first id_ rest).map (e :: ·)

/-- VecFSStorage.delete (storage.py lines 169 to 178). -/
def delete (st : StoreState) (id_ : String) : StoreState × Bool :=
  match remove_first id_ st.entries with
  | some l => (⟨l, l⟩, true)
  | none => (st, false)

open scoped Classical

/-- The similarity assigned to one entry by VecFSStorage.search (storage.py
    lines 136 to 145): 0 when the vector is absent or empty, else cosine
    similarity against the query with the query norm computed once. -/
noncomputable def sim_of (query : SparseVec) (e : Entry) : ℝ :=
  if e.vector.getD [] = [] then 0
  else cosine_similarity query (e.vector.getD []) (some (norm query))

/-- The decoration loop of VecFSStorage.search (storage.py lines 134 to
    151): every cached entry extended with its similarity. -/
noncomputable def search_decorate (query : SparseVec) (entries : List Entry) :
    List (Entry × ℝ) :=
  entries.map (fun e => (e, sim_of query e))

/-- Combined rank of a decorated result (storage.py line 153): similarity
    plus feedback boost of the score, a missing score counting as 0. -/
noncomputable def rank_of (p : Entry × ℝ) : ℝ :=
  combined_rank p.2 (p.1.score.getD 0)

/-- Sort relation of search: descending by combined rank. -/
noncomputable def rank_ge (a b : Entry × ℝ) : Prop :=
  rank_of b ≤ rank_of a

instance : IsTotal (Entry × ℝ) rank_ge :=
  ⟨fun a b => le_total (rank_of b) (rank_of a)⟩

instance : IsTrans (Entry × ℝ) rank_ge :=
  ⟨fun _ _ _ h1 h2 => le_trans h2 h1⟩

/-- The sort of search (storage.py lines 152 to 155): Python list.sort with
    reverse true is a stable descending sort, modelled by the standard
    stable insertion sort on the rank relation. -/
noncomputable def sort_results (l : List (Entry × ℝ)) : List (Entry × ℝ) :=
  List.insertionSort rank_ge l

/-- VecFSStorage.search (storage.py lines 127 to 156): decorate, sort by
    descending combined rank, return the first limit results. -/
noncomputable def search (query : SparseVec) (limit : ℕ) (entries : List Entry) :
    List (Entry × ℝ) :=
  (sort_results (search_decorate query entries)).take limit

/-- A JSON value of the server response (similarity and score are floats,
    hence real-valued). -/
inductive RVal where
  | str (s : String)
  | real (x : ℝ)
  | int (n : ℤ)
  | obj (kvs : List (String × PyVal))
  | null

/-- Encoding of r.get with a possibly missing score. -/
noncomputable def score_rval : Option ℝ → RVal
  | some x => .real x
  | none => .null

/-- One element of the out list of the search tool (server.py lines 48 to
    57): exactly the five listed fields. -/
noncomputable def result_fields (p : Entry × ℝ) : List (String × RVal) :=
  [("id", RVal.str p.1.id), ("metadata", RVal.obj p.1.metadata),
   ("score", score_rval p.1.score), ("timestamp", RVal.int p.1.timestamp),
   ("similarity", RVal.real p.2)]

/-- The response body of the search tool (server.py lines 46 to 58): the
    storage results mapped to the five-field records that are then JSON
    serialized. -/
noncomputable def server_search_out (query : SparseVec) (limit : ℕ)
    (entries : List Entry) : List (List (String × RVal)) :=
  (search query limit entries).map result_fields

/-- The local norm of l2_normalise (sparsify.py line 20). -/
noncomputable def dense_norm (dense : List ℝ) : ℝ :=
  Real.sqrt ((dense.map (fun v => v * v)).sum)

/-- l2_normalise (vecfs_embed/sparsify.py lines 14 to 23): divide by the
    Euclidean norm, returning a zero vector unchanged. -/
noncomputable def l2_normalise (dense : List ℝ) : List ℝ :=
  if dense_norm dense = 0 then dense
  else dense.map (fun v => v / dense_norm dense)

/-- to_sparse_threshold (sparsify.py lines 26 to 44): optionally normalise,
    keep components of absolute value strictly above the threshold, keys
    stringified dimension indices. -/
noncomputable def to_sparse_threshold (dense : List ℝ) (threshold : ℝ)
    (normalise : Bool) : List (String × ℝ) :=
  (((if normalise then l2_normalise dense else dense).enum.filter
      (fun p => |p.2| > threshold)).map (fun p => (toString p.1, p.2)))

/-- The inner loop of sparsity_at_thresholds (sparsify.py lines 109 to
    113): percentage of dimensions retained for one vector at one
    threshold, 0 for an empty vector. -/
noncomputable def retained_pct (dense : List ℝ) (t : ℝ) : ℝ :=
  if (l2_normalise dense).length = 0 then 0
  else (((l2_normalise dense).filter (fun v => |v| > t)).length : ℝ) /
      ((l2_normalise dense).length : ℝ) * 100

/-- Mean of the retained percentages across the vector batch (sparsify.py
    line 114), 0 for an empty batch. -/
noncomputable def mean_retained_pct (vectors : List (List ℝ)) (t : ℝ) : ℝ :=
  if vectors.map (fun d => retained_pct d t) = [] then 0
  else (vectors.map (fun d => retained_pct d t)).sum /
      ((vectors.map (fun d => retained_pct d t)).length : ℝ)

/-- The Python builtin round to the nearest integer, halves to the nearest
    even integer. -/
noncomputable def round_half_even (x : ℝ) : ℤ :=
  if Int.fract x < 1 / 2 then ⌊x⌋
  else if 1 / 2 < Int.fract x then ⌊x⌋ + 1
  else if Even ⌊x⌋ then ⌊x⌋ else ⌊x⌋ + 1

/-- Python round(x, 1): one decimal place, halves to even. -/
noncomputable def py_round1 (x : ℝ) : ℝ :=
  (round_half_even (10 * x) : ℝ) / 10

/-- sparsity_at_thresholds (sparsify.py lines 98 to 116): for each
    threshold the rounded mean retained percentage.  Python keys the result
    dictionary by str(t) and wraps each value in a one-field dictionary;
    the pair (t, value) models that record. -/
noncomputable def sparsity_at_thresholds (vectors : List (List ℝ))
    (thresholds : List ℝ) : List (ℝ × ℝ) :=
  thresholds.map (fun t => (t, py_round1 (mean_retained_pct vectors t)))

/-- Input universe of normalize_vector_input (sparse.py lines 45 to 55):
    a dense list of floats, a dictionary with string-or-int keys and float
    values, or any other object. -/
inductive RawInput where
  | list (xs : List ℝ)
  | dict (kvs : List (PyKey × ℝ))
  | other

/-- The key conversion int(k) of _normalize_keys (sparse.py lines 13 to
    15): an int key passes through, a string key must parse as a decimal
    integer or ValueError is raised. -/
def key_to_int : PyKey → Except PyErr ℤ
  | .i n => .ok n
  | .s v =>
    match py_int_of_string v with
    | some n => .ok n
    | none => .error .valueError

/-- The comprehension of _normalize_keys: convert every key, stopping at
    the first failing key. -/
def convert_keys : List (PyKey × ℝ) → Except PyErr (List (ℤ × ℝ))
  | [] => .ok []
  | kv :: rest =>
    match key_to_int kv.1 with
    | .error e => .error e
    | .ok n =>
      match convert_keys rest with
      | .error e => .error e
      | .ok l => .ok ((n, kv.2) :: l)

/-- Assignment on an int-keyed dictionary, position preserving. -/
def dict_set : List (ℤ × ℝ) → ℤ → ℝ → List (ℤ × ℝ)
  | [], k, v => [(k, v)]
  | kv :: rest, k, v =>
    if kv.1 = k then (kv.1, v) :: rest else kv :: dict_set rest k v

/-- Building the int-keyed dictionary from the converted pairs, later
    duplicates overwriting in place. -/
def dict_of_pairs (l : List (ℤ × ℝ)) : List (ℤ × ℝ) :=
  l.foldl (fun d kv => dict_set d kv.1 kv.2) []

/-- normalize_vector_input (sparse.py lines 45 to 55): a list becomes the
    sparse dictionary of its non-zero components, a dictionary has its keys
    converted to integers, anything else raises TypeError. -/
noncomputable def normalize_vector_input : RawInput → Except PyErr (List (ℤ × ℝ))
  | .list xs =>
    .ok ((xs.enum.filter (fun p => p.2 ≠ 0)).map (fun p => ((p.1 : ℤ), p.2)))
  | .dict kvs =>
    match convert_keys kvs with
    | .error e => .error e
    | .ok l => .ok (dict_of_pairs l)
  | .other => .error .typeError

end VecFS

namespace VecFS

open scoped Classical

/- Helper lemmas about the sparse arithmetic. -/

theorem lookup_self {v : SparseVec} (hnd : (v.map Prod.fst).Nodup)
    {p : ℕ × ℝ} (hp : p ∈ v) : v.lookup p.1 = some p.2 := by
  induction v with
  | nil => cases hp
  | cons q t ih =>
    obtain ⟨k, x⟩ := q
    simp only [List.map_cons, List.nodup_cons] at hnd
    rcases List.mem_cons.1 hp with h | h
    · subst h
      simp [List.lookup]
    · have hne : (p.1 == k) = false := by
        refine beq_eq_false_iff_ne.2 ?_
        intro he
        exact hnd.1 (he ▸ List.mem_map_of_mem Prod.fst h)
      simpa [List.lookup, hne] using ih hnd.2 h

theorem probe_sum_self {v : SparseVec} (hnd : (v.map Prod.fst).Nodup) :
    probe_sum v v = norm_sq v := by
  unfold probe_sum norm_sq
  refine congrArg List.sum (List.map_congr_left ?_)
  intro p hp
  rw [lookup_self hnd hp]

theorem norm_sq_nonneg (v : SparseVec) : 0 ≤ norm_sq v := by
  unfold norm_sq
  apply List.sum_nonneg
  intro x hx
  obtain ⟨p, _, rfl⟩ := List.mem_map.1 hx
  exact mul_self_nonneg _

theorem norm_eq_zero_iff {v : SparseVec} : norm v = 0 ↔ norm_sq v = 0 := by
  unfold norm
  exact Real.sqrt_eq_zero (norm_sq_nonneg v)

/-- C5: for every finite score s, feedbackBoost s = 0.1 * s / (1 + abs s)
    lies strictly within the open interval (-0.1, 0.1), however large the
    magnitude of s. -/
theorem c5_feedback_boost_bounded (s : ℝ) :
    -0.1 < feedback_boost s ∧ feedback_boost s < 0.1 := by
  have h1 : (0 : ℝ) < 1 + |s| := by positivity
  have hlt : s / (1 + |s|) < 1 := by
    rw [div_lt_one h1]
    linarith [le_abs_self s]
  have hgt : (-1 : ℝ) < s / (1 + |s|) := by
    rw [lt_div_iff₀ h1]
    have := neg_abs_le s
    linarith
  unfold feedback_boost FEEDBACK_RANK_WEIGHT
  constructor <;> linarith

/-- C6: cosine similarity of a vector of non-zero norm with itself is
    exactly 1; and with the norm argument absent or honestly precomputed,
    cosine similarity is exactly 0 whenever either norm is 0. -/
theorem c6_cosine_self_one_and_zero :
    (∀ v : SparseVec, (v.map Prod.fst).Nodup → norm v ≠ 0 →
      cosine_similarity v v none = 1) ∧
    (∀ (v1 v2 : SparseVec) (pre : Option ℝ),
      (pre = none ∨ pre = some (norm v1)) →
      (norm v1 = 0 ∨ norm v2 = 0) →
      cosine_similarity v1 v2 pre = 0) := by
  constructor
  · intro v hnd hv
    unfold cosine_similarity cos_n1
    rw [if_neg (by tauto)]
    unfold dot_product
    rw [if_neg (lt_irrefl _)]
    rw [probe_sum_self hnd]
    unfold norm
    rw [Real.mul_self_sqrt (norm_sq_nonneg v)]
    exact div_self (fun h => hv (norm_eq_zero_iff.2 h))
  · intro v1 v2 pre hpre h0
    rcases hpre with rfl | rfl
    · unfold cosine_similarity cos_n1
      rw [if_pos h0]
    · unfold cosine_similarity cos_n1
      rw [if_pos h0]

/-- Witness for C6 at concrete inputs: the unit vector on dimension 0
    against itself, and against the empty vector. -/
theorem c6_witness :
    cosine_similarity [(0, 1)] [(0, 1)] none = 1 ∧
    cosine_similarity [(0, 1)] [] none = 0 := by
  have hnd : (([((0 : ℕ), (1 : ℝ))]).map Prod.fst).Nodup := by simp
  have hsq : norm_sq [((0 : ℕ), (1 : ℝ))] = 1 := by
    unfold norm_sq
    norm_num
  have hnorm : norm [((0 : ℕ), (1 : ℝ))] ≠ 0 := by
    unfold norm
    rw [hsq, Real.sqrt_one]
    norm_num
  have hzero : norm ([] : SparseVec) = 0 := by
    unfold norm norm_sq
    simp
  exact ⟨c6_cosine_self_one_and_zero.1 _ hnd hnorm,
    c6_cosine_self_one_and_zero.2 [(0, 1)] [] none (Or.inl rfl) (Or.inr hzero)⟩

/- Helper lemmas about normalize_vector_input. -/

theorem convert_keys_bad {kvs : List (PyKey × ℝ)}
    (h : ∃ kv ∈ kvs, ∃ v : String, kv.1 = PyKey.s v ∧ py_int_of_string v = none) :
    convert_keys kvs = .error .valueError := by
  induction kvs with
  | nil =>
    obtain ⟨kv, hkv, _⟩ := h
    cases hkv
  | cons kv rest ih =>
    obtain ⟨kv0, hmem, v, hv, hnone⟩ := h
    rcases List.mem_cons.1 hmem with heq | hmem'
    · subst heq
      obtain ⟨k, x⟩ := kv0
      simp only at hv
      subst hv
      simp [convert_keys, key_to_int, hnone]
    · obtain ⟨k, x⟩ := kv
      have hrest := ih ⟨kv0, hmem', v, hv, hnone⟩
      cases k with
      | s w =>
        cases hw : py_int_of_string w with
        | none => simp [convert_keys, key_to_int, hw]
        | some n => simp [convert_keys, key_to_int, hw, hrest]
      | i n => simp [convert_keys, key_to_int, hrest]

theorem convert_keys_ne_type_error (kvs : List (PyKey × ℝ)) :
    convert_keys kvs ≠ .error .typeError := by
  induction kvs with
  | nil => simp [convert_keys]
  | cons kv rest ih =>
    obtain ⟨k, x⟩ := kv
    cases k with
    | s w =>
      cases hw : py_int_of_string w with
      | none => simp [convert_keys, key_to_int, hw]
      | some n =>
        cases hr : convert_keys rest with
        | error e =>
          cases e
          · simp [convert_keys, key_to_int, hw, hr]
          · exact absurd hr ih
        | ok l => simp [convert_keys, key_to_int, hw, hr]
    | i n =>
      cases hr : convert_keys rest with
      | error e =>
        cases e
        · simp [convert_keys, key_to_int, hr]
        · exact absurd hr ih
      | ok l => simp [convert_keys, key_to_int, hr]

/-- C10: a map input holding a key that is neither an integer nor a
    decimal-integer string fails with ValueError from the key-conversion
    step, while TypeError is raised exactly when the input is neither a
    list nor a map. -/
theorem c10_bad_key_raises_value_error :
    (∀ kvs : List (PyKey × ℝ),
      (∃ kv ∈ kvs, ∃ v : String, kv.1 = PyKey.s v ∧ py_int_of_string v = none) →
      normalize_vector_input (RawInput.dict kvs) = .error .valueError) ∧
    (∀ raw : RawInput,
      normalize_vector_input raw = .error .typeError ↔ raw = RawInput.other) := by
  constructor
  · intro kvs h
    simp [normalize_vector_input, convert_keys_bad h]
  · intro raw
    constructor
    · intro h
      cases raw with
      | list xs => simp [normalize_vector_input] at h
      | dict kvs =>
        exfalso
        cases hr : convert_keys kvs with
        | error e =>
          cases e
          · simp [normalize_vector_input, hr] at h
          · exact convert_keys_ne_type_error kvs hr
        | ok l => simp [normalize_vector_input, hr] at h
      | other => rfl
    · rintro rfl
      rfl

/-- Witness for C10: the key "abc" is not decimal, and the call on the
    one-pair map fails with ValueError. -/
theorem c10_witness :
    (∃ kv ∈ [(PyKey.s "abc", (1 : ℝ))], ∃ v : String,
      kv.1 = PyKey.s v ∧ py_int_of_string v = none) ∧
    normalize_vector_input (RawInput.dict [(PyKey.s "abc", 1)]) =
      .error .valueError := by
  have hbad : ∃ kv ∈ [(PyKey.s "abc", (1 : ℝ))], ∃ v : String,
      kv.1 = PyKey.s v ∧ py_int_of_string v = none :=
    ⟨(PyKey.s "abc", 1), by simp, "abc", rfl, by decide⟩
  exact ⟨hbad, c10_bad_key_raises_value_error.1 _ hbad⟩

/-- C1 (refuting the blanket skip guarantee): a JSON number line makes the
    load raise TypeError; a JSON string line is appended to the cache
    rather than skipped; a malformed line is skipped without blocking a
    following well-formed object line. -/
theorem c1_load_nonobject_lines :
    load_entries [RawLine.parsed (PyVal.num 5)] = .error .typeError ∧
    load_entries [RawLine.parsed (PyVal.str "oops")] = .ok [PyVal.str "oops"] ∧
    load_entries [RawLine.malformed,
        RawLine.parsed (PyVal.dict [(PyKey.s "id", PyVal.str "a")])] =
      .ok [PyVal.dict [(PyKey.s "id", PyVal.str "a")]] :=
  ⟨rfl, rfl, rfl⟩

/- Helper lemmas about the store mutation loops. -/

theorem upsert_first_some {full : Entry} :
    ∀ {l l' : List Entry}, upsert_first full l = some l' →
      ∃ pre e post, l = pre ++ e :: post ∧ e.id = full.id ∧
        (∀ e' ∈ pre, e'.id ≠ full.id) ∧ l' = pre ++ full :: post := by
  intro l
  induction l with
  | nil => intro l' h; simp [upsert_first] at h
  | cons e rest ih =>
    intro l' h
    by_cases he : e.id = full.id
    · rw [upsert_first, if_pos he] at h
      injection h with h
      exact ⟨[], e, rest, by simp, he, by simp, by simp [← h]⟩
    · rw [upsert_first, if_neg he] at h
      cases hrec : upsert_first full rest with
      | none => rw [hrec] at h; simp at h
      | some l'' =>
        rw [hrec] at h
        simp only [Option.map_some', Option.some.injEq] at h
        obtain ⟨pre, e0, post, hl, hid, hpre, hl'⟩ := ih hrec
        refine ⟨e :: pre, e0, post, by simp [hl], hid, ?_, by simp [← h, hl']⟩
        intro e' he'
        rcases List.mem_cons.1 he' with rfl | h'
        · exact he
        · exact hpre e' h'

theorem upsert_first_none {full : Entry} :
    ∀ {l : List Entry}, upsert_first full l = none ↔ ∀ e ∈ l, e.id ≠ full.id := by
  intro l
  induction l with
  | nil => simp [upsert_first]
  | cons e rest ih =>
    by_cases he : e.id = full.id
    · simp [upsert_first, he]
    · rw [upsert_first, if_neg he]
      simp [Option.map_eq_none', ih, he]

theorem upsert_first_map_id {full : Entry} :
    ∀ {l l' : List Entry}, upsert_first full l = some l' →
      l'.map Entry.id = l.map Entry.id := by
  intro l
  induction l with
  | nil => intro l' h; simp [upsert_first] at h
  | cons e rest ih =>
    intro l' h
    by_cases he : e.id = full.id
    · rw [upsert_first, if_pos he] at h
      injection h with h
      simp [← h, he]
    · rw [upsert_first, if_neg he] at h
      cases hrec : upsert_first full rest with
      | none => rw [hrec] at h; simp at h
      | some l'' =>
        rw [hrec] at h
        simp only [Option.map_some', Option.some.injEq] at h
        simp [← h, ih hrec]

theorem adjust_first_map_id {id_ : String} {adj : ℝ} :
    ∀ {l l' : List Entry}, adjust_first id_ adj l = some l' →
      l'.map Entry.id = l.map Entry.id := by
  intro l
  induction l with
  | nil => intro l' h; simp [adjust_first] at h
  | cons e rest ih =>
    intro l' h
    by_cases he : e.id = id_
    · rw [adjust_first, if_pos he] at h
      injection h with h
      simp [← h]
    · rw [adjust_first, if_neg he] at h
      cases hrec : adjust_first id_ adj rest with
      | none => rw [hrec] at h; simp at h
      | some l'' =>
        rw [hrec] at h
        simp only [Option.map_some', Option.some.injEq] at h
        simp [← h, ih hrec]

theorem remove_first_sublist {id_ : String} :
    ∀ {l l' : List Entry}, remove_first id_ l = some l' → List.Sublist l' l := by
  intro l
  induction l with
  | nil => intro l' h; simp [remove_first] at h
  | cons e rest ih =>
    intro l' h
    by_cases he : e.id = id_
    · rw [remove_first, if_pos he] at h
      injection h with h
      exact h ▸ List.sublist_cons_self e rest
    · rw [remove_first, if_neg he] at h
      cases hrec : remove_first id_ rest with
      | none => rw [hrec] at h; simp at h
      | some l'' =>
        rw [hrec] at h
        simp only [Option.map_some', Option.some.injEq] at h
        exact h ▸ (ih hrec).cons₂ e

/-- C2: if an entry with the id exists, store replaces the first such entry
    in place with the full fresh record, rewrites the whole backing file
    from the cache and returns false; otherwise it appends the record to
    the cache, appends exactly one line to the backing file, and returns
    true. -/
theorem c2_store_upsert (st : StoreState) (id_ : String) (vector : SparseVec)
    (metadata : Option (List (String × PyVal))) (score : ℝ) (now : ℤ) :
    ((∃ e ∈ st.entries, e.id = id_) →
      (store st id_ vector metadata score now).2 = false ∧
      (∃ pre e post, st.entries = pre ++ e :: post ∧ e.id = id_ ∧
        (∀ e' ∈ pre, e'.id ≠ id_) ∧
        (store st id_ vector metadata score now).1.entries =
          pre ++ full_entry id_ vector metadata score now :: post) ∧
      (store st id_ vector metadata score now).1.file =
        (store st id_ vector metadata score now).1.entries) ∧
    ((∀ e ∈ st.entries, e.id ≠ id_) →
      (store st id_ vector metadata score now).2 = true ∧
      (store st id_ vector metadata score now).1.entries =
        st.entries ++ [full_entry id_ vector metadata score now] ∧
      (store st id_ vector metadata score now).1.file =
        st.file ++ [full_entry id_ vector metadata score now]) := by
  constructor
  · intro hex
    cases hu : upsert_first (full_entry id_ vector metadata score now) st.entries with
    | none =>
      exfalso
      obtain ⟨e, he, hid⟩ := hex
      exact (upsert_first_none.1 hu e he) (by simpa [full_entry] using hid)
    | some l =>
      obtain ⟨pre, e, post, hl, hid, hpre, hl'⟩ := upsert_first_some hu
      refine ⟨by simp [store, hu], ⟨pre, e, post, hl,
        by simpa [full_entry] using hid, ?_, by simp [store, hu, hl']⟩,
        by simp [store, hu]⟩
      intro e' he'
      simpa [full_entry] using hpre e' he'
  · intro hnone
    have hu : upsert_first (full_entry id_ vector metadata score now) st.entries = none :=
      upsert_first_none.2 (fun e he => by simpa [full_entry] using hnone e he)
    exact ⟨by simp [store, hu], by simp [store, hu], by simp [store, hu]⟩

/-- Witness for C2: storing an existing id returns false, storing a fresh
    id returns true. -/
theorem c2_witness :
    (store ⟨[⟨"a", [], none, none, 0⟩], [⟨"a", [], none, none, 0⟩]⟩
      "a" [(0, 1)] none 0 5).2 = false ∧
    (store ⟨[], []⟩ "b" [(0, 1)] none 0 5).2 = true := by
  constructor
  · exact ((c2_store_upsert ⟨[⟨"a", [], none, none, 0⟩], [⟨"a", [], none, none, 0⟩]⟩
      "a" [(0, 1)] none 0 5).1 ⟨⟨"a", [], none, none, 0⟩, by simp, rfl⟩).1
  · exact ((c2_store_upsert ⟨[], []⟩ "b" [(0, 1)] none 0 5).2 (by simp)).1

/-- C4: starting from a cache with pairwise distinct ids, each of store,
    updateScore and delete leaves the ids of the cache pairwise
    distinct. -/
theorem c4_unique_id_invariant (st : StoreState)
    (hnd : (st.entries.map Entry.id).Nodup) (id_ : String) (vector : SparseVec)
    (metadata : Option (List (String × PyVal))) (score adj : ℝ) (now : ℤ) :
    ((store st id_ vector metadata score now).1.entries.map Entry.id).Nodup ∧
    ((update_score st id_ adj).1.entries.map Entry.id).Nodup ∧
    ((delete st id_).1.entries.map Entry.id).Nodup := by
  refine ⟨?_, ?_, ?_⟩
  · cases hu : upsert_first (full_entry id_ vector metadata score now) st.entries with
    | some l =>
      have := upsert_first_map_id hu
      simp only [store, hu]
      exact this ▸ hnd
    | none =>
      have hnot : id_ ∉ st.entries.map Entry.id := by
        intro hmem
        obtain ⟨e, he, hid⟩ := List.mem_map.1 hmem
        exact (upsert_first_none.1 hu e he) (by simpa [full_entry] using hid)
      simp only [store, hu, List.map_append]
      refine List.Nodup.append hnd (by simp) ?_
      intro a ha hb
      simp [full_entry] at hb
      exact hnot (hb ▸ ha)
  · cases ha : adjust_first id_ adj st.entries with
    | some l =>
      have := adjust_first_map_id ha
      simp only [update_score, ha]
      exact this ▸ hnd
    | none =>
      simp only [update_score, ha]
      exact hnd
  · cases hr : remove_first id_ st.entries with
    | some l =>
      have := (remove_first_sublist hr).map Entry.id
      simp only [delete, hr]
      exact hnd.sublist this
    | none =>
      simp only [delete, hr]
      exact hnd

/-- Witness for C4: the singleton store with id a keeps distinct ids under
    all three mutations. -/
theorem c4_witness :
    ((store ⟨[⟨"a", [], none, none, 0⟩], [⟨"a", [], none, none, 0⟩]⟩
        "a" [(0, 1)] none 0 5).1.entries.map Entry.id).Nodup ∧
    ((update_score ⟨[⟨"a", [], none, none, 0⟩], [⟨"a", [], none, none, 0⟩]⟩
        "a" 1).1.entries.map Entry.id).Nodup ∧
    ((delete ⟨[⟨"a", [], none, none, 0⟩], [⟨"a", [], none, none, 0⟩]⟩
        "a").1.entries.map Entry.id).Nodup :=
  c4_unique_id_invariant ⟨[⟨"a", [], none, none, 0⟩], [⟨"a", [], none, none, 0⟩]⟩
    (by simp) "a" [(0, 1)] none 0 1 5

/- Helper lemmas about the search sort. -/

theorem filter_sort_stable (l : List (Entry × ℝ)) (c : ℝ) :
    (sort_results l).filter (fun p => rank_of p = c) =
      l.filter (fun p => rank_of p = c) := by
  have hself : (l.filter (fun p => rank_of p = c)).filter
      (fun p => rank_of p = c) = l.filter (fun p => rank_of p = c) := by
    refine List.filter_eq_self.2 ?_
    intro a ha
    exact (List.mem_filter.1 ha).2
  have hpw : (l.filter (fun p => rank_of p = c)).Pairwise rank_ge := by
    refine List.pairwise_of_forall_mem_list ?_
    intro a ha b hb
    have hac : rank_of a = c := by simpa using (List.mem_filter.1 ha).2
    have hbc : rank_of b = c := by simpa using (List.mem_filter.1 hb).2
    unfold rank_ge
    rw [hac, hbc]
  have h2 : List.Sublist (l.filter (fun p => rank_of p = c)) (sort_results l) :=
    List.sublist_insertionSort hpw (List.filter_sublist l)
  have h3 : List.Sublist (l.filter (fun p => rank_of p = c))
      ((sort_results l).filter (fun p => rank_of p = c)) := by
    have := h2.filter (fun p => decide (rank_of p = c))
    rwa [hself] at this
  have h4 : ((sort_results l).filter (fun p => rank_of p = c)).length =
      (l.filter (fun p => rank_of p = c)).length :=
    ((List.perm_insertionSort rank_ge l).filter _).length_eq
  exact (h3.eq_of_length h4.symm).symm

/-- C3: search returns min limit count results, sorted descending by
    combined rank; when the limit covers the cache the result is a
    permutation of all decorated entries; the sort is stable (the
    subsequence at any fixed rank equals that of the decorated cache
    order); every result is a cached entry decorated with its similarity,
    which is 0 when the vector is empty or absent. -/
theorem c3_search_ranked (query : SparseVec) (limit : ℕ) (entries : List Entry) :
    (search query limit entries).length = min limit entries.length ∧
    (search query limit entries).Pairwise rank_ge ∧
    (entries.length ≤ limit →
      (search query limit entries).Perm (search_decorate query entries)) ∧
    (∀ c : ℝ, (sort_results (search_decorate query entries)).filter
        (fun p => rank_of p = c) =
      (search_decorate query entries).filter (fun p => rank_of p = c)) ∧
    (∀ p ∈ search query limit entries, ∃ e ∈ entries, p = (e, sim_of query e)) ∧
    (∀ p ∈ search query limit entries, p.1.vector.getD [] = [] → p.2 = 0) := by
  have hlen : (sort_results (search_decorate query entries)).length = entries.length := by
    rw [sort_results, (List.perm_insertionSort rank_ge _).length_eq, search_decorate,
      List.length_map]
  have hmem : ∀ p ∈ search query limit entries, ∃ e ∈ entries, p = (e, sim_of query e) := by
    intro p hp
    have hp1 : p ∈ sort_results (search_decorate query entries) :=
      (List.take_sublist _ _).subset hp
    have hp2 : p ∈ search_decorate query entries :=
      (List.perm_insertionSort rank_ge _).subset hp1
    obtain ⟨e, he, heq⟩ := List.mem_map.1 hp2
    exact ⟨e, he, heq.symm⟩
  refine ⟨?_, ?_, ?_, fun c => filter_sort_stable _ c, hmem, ?_⟩
  · rw [search, List.length_take, hlen]
  · refine List.Pairwise.sublist (List.take_sublist _ _) ?_
    simpa [List.Sorted] using List.sorted_insertionSort rank_ge (search_decorate query entries)
  · intro hle
    rw [search, List.take_of_length_le (by rw [hlen]; exact hle)]
    exact List.perm_insertionSort rank_ge _
  · intro p hp hvec
    obtain ⟨e, _, rfl⟩ := hmem p hp
    simp only at hvec
    rw [sim_of, if_pos hvec]

/-- Witness for C3: a one-entry cache with limit 5, so the limit exceeds
    the entry count and search returns all decorated entries. -/
theorem c3_witness :
    ([(⟨"a", [], none, none, 0⟩ : Entry)]).length ≤ 5 ∧
    (search [(0, 1)] 5 [⟨"a", [], none, none, 0⟩]).Perm
      (search_decorate [(0, 1)] [⟨"a", [], none, none, 0⟩]) :=
  ⟨by simp, (c3_search_ranked [(0, 1)] 5 [⟨"a", [], none, none, 0⟩]).2.2.1 (by simp)⟩

/- Helper lemmas about sparsification and rounding. -/

theorem length_filter_mono {α : Type} {p q : α → Bool}
    (h : ∀ a, p a = true → q a = true) :
    ∀ l : List α, (l.filter p).length ≤ (l.filter q).length := by
  intro l
  induction l with
  | nil => simp
  | cons a t ih =>
    by_cases hp : p a = true
    · rw [List.filter_cons_of_pos hp, List.filter_cons_of_pos (h a hp)]
      simpa using ih
    · rw [List.filter_cons_of_neg (by simpa using hp)]
      by_cases hq : q a = true
      · rw [List.filter_cons_of_pos hq]
        exact le_trans ih (Nat.le_succ _)
      · rw [List.filter_cons_of_neg (by simpa using hq)]
        exact ih

theorem round_half_even_ge_floor (x : ℝ) : ⌊x⌋ ≤ round_half_even x := by
  unfold round_half_even
  split_ifs <;> omega

theorem round_half_even_le_floor_add_one (x : ℝ) : round_half_even x ≤ ⌊x⌋ + 1 := by
  unfold round_half_even
  split_ifs <;> omega

theorem round_half_even_mono {x y : ℝ} (h : x ≤ y) :
    round_half_even x ≤ round_half_even y := by
  rcases lt_or_eq_of_le (Int.floor_le_floor h) with hf | hf
  · calc round_half_even x ≤ ⌊x⌋ + 1 := round_half_even_le_floor_add_one x
    _ ≤ ⌊y⌋ := by omega
    _ ≤ round_half_even y := round_half_even_ge_floor y
  · have hfr : Int.fract x ≤ Int.fract y := by
      unfold Int.fract
      rw [hf]
      linarith [hf ▸ (rfl : (⌊x⌋ : ℝ) = (⌊x⌋ : ℝ))]
    unfold round_half_even
    rw [hf]
    split_ifs <;> first | omega | linarith

theorem py_round1_mono {x y : ℝ} (h : x ≤ y) : py_round1 x ≤ py_round1 y := by
  unfold py_round1
  have hm := round_half_even_mono (by linarith : 10 * x ≤ 10 * y)
  have hc : ((round_half_even (10 * x) : ℤ) : ℝ) ≤
      ((round_half_even (10 * y) : ℤ) : ℝ) := Int.cast_le.2 hm
  linarith

/-- C7: every value retained by toSparseByThreshold strictly exceeds the
    threshold in absolute value, raising the threshold never increases the
    retained count, and the empty input yields the empty map. -/
theorem c7_threshold_filter (dense : List ℝ) (t t' : ℝ) (normalise : Bool) :
    (∀ p ∈ to_sparse_threshold dense t normalise, |p.2| > t) ∧
    (t ≤ t' → (to_sparse_threshold dense t' normalise).length ≤
      (to_sparse_threshold dense t normalise).length) ∧
    to_sparse_threshold [] t normalise = [] := by
  refine ⟨?_, ?_, ?_⟩
  · intro p hp
    obtain ⟨q, hq, heq⟩ := List.mem_map.1 hp
    have h2 : |q.2| > t := by simpa using (List.mem_filter.1 hq).2
    rw [← heq]
    simpa using h2
  · intro hle
    unfold to_sparse_threshold
    rw [List.length_map, List.length_map]
    refine length_filter_mono ?_ _
    intro a ha
    have h2 : |a.2| > t' := by simpa using ha
    simpa using lt_of_le_of_lt hle h2
  · unfold to_sparse_threshold
    cases normalise <;> simp [l2_normalise, dense_norm]

/-- Witness for C7: the retained count at threshold 0.02 is at most the
    retained count at threshold 0.01 on the vector [3, 4]. -/
theorem c7_witness :
    (0.01 : ℝ) ≤ 0.02 ∧
    (to_sparse_threshold [3, 4] 0.02 true).length ≤
      (to_sparse_threshold [3, 4] 0.01 true).length :=
  ⟨by norm_num, (c7_threshold_filter [3, 4] 0.01 0.02 true).2.1 (by norm_num)⟩

theorem retained_pct_mono (dense : List ℝ) {t1 t2 : ℝ} (h : t1 ≤ t2) :
    retained_pct dense t2 ≤ retained_pct dense t1 := by
  unfold retained_pct
  by_cases h0 : (l2_normalise dense).length = 0
  · simp [h0]
  · rw [if_neg h0, if_neg h0]
    have hk : ((l2_normalise dense).filter (fun v => |v| > t2)).length ≤
        ((l2_normalise dense).filter (fun v => |v| > t1)).length := by
      refine length_filter_mono ?_ _
      intro a ha
      have h2 : |a| > t2 := by simpa using ha
      simpa using lt_of_le_of_lt h h2
    have hkc : (((l2_normalise dense).filter (fun v => |v| > t2)).length : ℝ) ≤
        (((l2_normalise dense).filter (fun v => |v| > t1)).length : ℝ) := by
      exact_mod_cast hk
    have hpos : (0 : ℝ) < ((l2_normalise dense).length : ℝ) := by
      exact_mod_cast Nat.pos_of_ne_zero h0
    exact mul_le_mul_of_nonneg_right ((div_le_div_iff_of_pos_right hpos).2 hkc)
      (by norm_num)

theorem mean_retained_pct_mono (vectors : List (List ℝ)) {t1 t2 : ℝ}
    (h : t1 ≤ t2) :
    mean_retained_pct vectors t2 ≤ mean_retained_pct vectors t1 := by
  unfold mean_retained_pct
  cases vectors with
  | nil => simp
  | cons v vs =>
    rw [if_neg (by simp), if_neg (by simp)]
    have hsum : ((v :: vs).map (fun d => retained_pct d t2)).sum ≤
        ((v :: vs).map (fun d => retained_pct d t1)).sum :=
      List.sum_le_sum (fun d _ => retained_pct_mono d h)
    simp only [List.length_map, List.length_cons]
    have hpos : (0 : ℝ) < ((vs.length + 1 : ℕ) : ℝ) := by positivity
    exact (div_le_div_iff_of_pos_right hpos).2 hsum

/-- C8: for a fixed vector batch, a strictly higher threshold never reports
    a higher rounded mean retained percentage in sparsityAtThresholds. -/
theorem c8_sparsity_monotone (vectors : List (List ℝ)) (thresholds : List ℝ)
    (t1 t2 r1 r2 : ℝ) (h12 : t1 < t2)
    (h1 : (t1, r1) ∈ sparsity_at_thresholds vectors thresholds)
    (h2 : (t2, r2) ∈ sparsity_at_thresholds vectors thresholds) :
    r2 ≤ r1 := by
  obtain ⟨a, _, heq1⟩ := List.mem_map.1 h1
  obtain ⟨b, _, heq2⟩ := List.mem_map.1 h2
  rw [Prod.ext_iff] at heq1 heq2
  obtain ⟨ha, hr1⟩ := heq1
  obtain ⟨hb, hr2⟩ := heq2
  simp only at ha hb hr1 hr2
  subst ha hb
  rw [← hr1, ← hr2]
  exact py_round1_mono (mean_retained_pct_mono vectors h12.le)

/-- Witness for C8: thresholds 0.01 and 0.02 on the batch holding only
    [3, 4]. -/
theorem c8_witness :
    (0.01 : ℝ) < 0.02 ∧
    py_round1 (mean_retained_pct [[3, 4]] 0.02) ≤
      py_round1 (mean_retained_pct [[3, 4]] 0.01) := by
  refine ⟨by norm_num, ?_⟩
  refine c8_sparsity_monotone [[3, 4]] [0.01, 0.02] 0.01 0.02 _ _ (by norm_num)
    ?_ ?_
  · simp [sparsity_at_thresholds]
  · simp [sparsity_at_thresholds]

/-- C9: every result of the search response exposed to the protocol layer
    carries exactly the fields id, metadata, score, timestamp and
    similarity, and never a vector field. -/
theorem c9_result_fields_exact (query : SparseVec) (limit : ℕ)
    (entries : List Entry) :
    ∀ res ∈ server_search_out query limit entries,
      res.map Prod.fst = ["id", "metadata", "score", "timestamp", "similarity"] ∧
      "vector" ∉ res.map Prod.fst := by
  intro res hres
  obtain ⟨p, _, rfl⟩ := List.mem_map.1 hres
  refine ⟨rfl, ?_⟩
  simp only [result_fields, List.map_cons, List.map_nil]
  decide

/-- Witness for C9: the one result produced by a singleton store. -/
theorem c9_witness :
    ([("id", RVal.str "a"), ("metadata", RVal.obj []), ("score", RVal.null),
      ("timestamp", RVal.int 0), ("similarity", RVal.real 0)]).map Prod.fst =
      ["id", "metadata", "score", "timestamp", "similarity"] ∧
    "vector" ∉ ([("id", RVal.str "a"), ("metadata", RVal.obj []),
      ("score", RVal.null), ("timestamp", RVal.int 0),
      ("similarity", RVal.real 0)]).map Prod.fst := by
  have hmem : [("id", RVal.str "a"), ("metadata", RVal.obj []),
      ("score", RVal.null), ("timestamp", RVal.int 0),
      ("similarity", RVal.real 0)] ∈
      server_search_out [(0, 1)] 5 [⟨"a", [], none, none, 0⟩] := by
    simp [server_search_out, search, sort_results, search_decorate, sim_of,
      result_fields, score_rval]
  exact c9_result_fields_exact [(0, 1)] 5 [⟨"a", [], none, none, 0⟩] _ hmem

end VecFS
